import Mathlib

set_option maxRecDepth 4000

/-!
Verification development for the GIF encoder of `src/encoder.rs` (crate `image-gif`).

The encoder is shallowly embedded: the byte sink is a `List Nat` of bytes
(values `< 256`), mirroring the infallible `Write` implementation for `Vec<u8>`
in `src/io.rs` (`write` and `write_all` on a `Vec` never fail, so the `Io`
error constructor can never be produced in runs over this sink).  Machine
integers are modelled as `Nat` with `% 256` at each `u8` write and
`[n % 256, n / 256 % 256]` for the little-endian `u16` writes of
`src/traits.rs`.  Fallible operations return the encoder state paired with
`Option EncodingError` (the state is kept so that bytes written before a
failure remain observable, as they do through the `&mut` sink in Rust).
-/

/-- Fuel-driven loop of `u32::next_power_of_two` (Rust core): starting from
`power = 1`, double until `power >= n`.  Structural recursion on fuel so that
the kernel can evaluate it; fuel `n` always suffices since at most
`log2 n + 1 <= n` doublings happen for `n >= 1`, and for `n = 0` the loop
guard is immediately false. -/
def nextPowTwoGo (n : Nat) : Nat → Nat → Nat
  | 0, power => power
  | fuel + 1, power => if power < n then nextPowTwoGo n fuel (power * 2) else power

/-- Rust `n.next_power_of_two()`: the least power of two that is `>= n`
(and `1` for `n = 0`). -/
def nextPowTwo (n : Nat) : Nat :=
  nextPowTwoGo n n 1

/-- Fuel-driven count of trailing zero bits.  Only ever applied to outputs of
`nextPowTwo`, which are `>= 1`, so the `n = 0` fuel-exhaustion corner of Rust
`u32::trailing_zeros` (which returns 32) is never exercised. -/
def trailingZerosGo : Nat → Nat → Nat
  | 0, _ => 0
  | fuel + 1, n => if n % 2 = 0 then trailingZerosGo fuel (n / 2) + 1 else 0

/-- Rust `n.trailing_zeros()` for `n >= 1`. -/
def trailingZeros (n : Nat) : Nat :=
  trailingZerosGo n n

/-- `WriteBytesExt::write_le` for `u16` (`src/traits.rs`): least significant
byte first. -/
def byteLE16 (n : Nat) : List Nat := [n % 256, n / 256 % 256]

/-- `EncodingFormatError` from `src/encoder.rs`. -/
inductive EncodingFormatError
  | TooManyColors
  | MissingColorPalette
  | InvalidMinCodeSize
deriving DecidableEq, Repr

/-- `EncodingError` from `src/encoder.rs`.  The `Io` constructor is omitted:
the modelled sink is the `Vec<u8>` writer of `src/io.rs`, whose `write_all`
is infallible, so no run can produce an I/O error. -/
inductive EncodingError
  | FrameBufferTooSmallForDimensions
  | OutOfMemory
  | WriterNotFound
  | Format (e : EncodingFormatError)
deriving DecidableEq, Repr

/-- The ASCII bytes of the `"GIF89a"` signature written by
`Encoder::write_screen_desc`. -/
def gifSignature : List Nat := [71, 73, 70, 56, 57, 97]

/-- Modelled from the spec: `Block::Image` of `common.rs` is not among the
provided sources; section 6.2 of the spec gives the image separator `0x2C`. -/
def blockImage : Nat := 44

/-- Modelled from the spec: `Block::Extension` of `common.rs`; the extension
introducer is `0x21` per spec section 6.2. -/
def blockExtensionByte : Nat := 33

/-- Modelled from the spec: `Block::Trailer` of `common.rs`; the trailer byte
is `0x3B` per spec section 6.2 and the glossary. -/
def blockTrailer : Nat := 59

/-- Modelled from the spec: `Extension::Control` of `common.rs`; the
graphic-control label is `0xF9` per spec section 4.5.1. -/
def extensionControl : Nat := 249

/-- Modelled from the spec: `Extension::Application` of `common.rs`; the
application-extension label is `0xFF` per spec section 4.6. -/
def extensionApplication : Nat := 255

/-- Modelled from the spec: `DisposalMethod` of `common.rs` (not among the
provided sources); the 2-bit enum with values Any=0, Keep=1, Background=2,
Previous=3 per spec section 3. -/
inductive DisposalMethod
  | Any
  | Keep
  | Background
  | Previous
deriving DecidableEq, Repr

/-- The numeric value of a disposal method (`dispose as u8`). -/
def DisposalMethod.toNat : DisposalMethod → Nat
  | .Any => 0
  | .Keep => 1
  | .Background => 2
  | .Previous => 3

/-- Modelled from the spec: `Frame` lives in `common.rs`, which is not among
the provided sources; the fields follow spec section 3.  The `buffer` holds
either raw palette indices or a pre-compressed LZW payload. -/
structure Frame where
  left : Nat
  top : Nat
  width : Nat
  height : Nat
  delay : Nat
  dispose : DisposalMethod
  needs_user_input : Bool
  transparent : Option Nat
  interlaced : Bool
  palette : Option (List Nat)
  buffer : List Nat
deriving DecidableEq, Repr

/-- `Repeat` from `src/encoder.rs`. -/
inductive GifRepeat
  | Finite (n : Nat)
  | Infinite
deriving DecidableEq, Repr

/-- `ExtensionData` from `src/encoder.rs`. -/
inductive ExtensionData
  | Control (flags : Nat) (delay : Nat) (trns : Nat)
  | Repetitions (r : GifRepeat)
deriving DecidableEq, Repr

/-- `ExtensionData::new_control_ext` from `src/encoder.rs`: pack the
transparency-present bit (bit 0), the user-input bit (bit 1) and the disposal
method (bits 2..) into the flags byte. -/
def ExtensionData.new_control_ext (delay : Nat) (dispose : DisposalMethod)
    (needs_user_input : Bool) (trns : Option Nat) : ExtensionData :=
  let (flags1, t) :=
    match trns with
    | some t => ((0 : Nat) ||| 1, t)
    | none => ((0 : Nat), 0)
  let flags2 := flags1 ||| ((if needs_user_input then (1 : Nat) else 0) <<< 1)
  let flags3 := flags2 ||| (dispose.toNat <<< 2)
  .Control flags3 delay t

/-- The `Encoder` state of `src/encoder.rs`: the sink (`None` once taken by
`into_inner`), the global-palette flag, the screen dimensions and the reusable
LZW scratch buffer. -/
structure Encoder where
  w : Option (List Nat)
  global_palette : Bool
  width : Nat
  height : Nat
  buffer : List Nat
deriving DecidableEq, Repr

/-- `flag_size` from `src/encoder.rs`:
`(size.clamp(2, 255).next_power_of_two().trailing_zeros() - 1) as u8`.
Rust `clamp(2, 255)` is `min (max size 2) 255`. -/
def flag_size (size : Nat) : Nat :=
  trailingZeros (nextPowTwo (min (max size 2) 255)) - 1

/-- `Encoder::check_color_table`: count whole triplets, reject more than 256,
return the truncated slice (`table[..num_colors * 3]`, excess bytes dropped),
the padding count `(2 << table_size) - num_colors` and the size field. -/
def check_color_table (table : List Nat) :
    Except EncodingError (List Nat × Nat × Nat) :=
  let num_colors := table.length / 3
  if num_colors > 256 then
    .error (.Format .TooManyColors)
  else
    let table_size := flag_size num_colors
    let padding := (2 <<< table_size) - num_colors
    .ok (table.take (num_colors * 3), padding, table_size)

/-- Bytes emitted by `Encoder::write_color_table`: the table slice followed by
`padding` copies of the zero triplet `[0, 0, 0]`. -/
def color_table_bytes (table : List Nat) (padding : Nat) : List Nat :=
  table ++ List.flatten (List.replicate padding [0, 0, 0])

/-- Payload bytes written by `Encoder::write_extension` for a non-skipped
extension: the extension introducer, the label and body, and the terminating
`0x00`.  `NETSCAPE2.0` is spelled out as its ASCII bytes. -/
def extension_block_bytes (x : ExtensionData) : List Nat :=
  blockExtensionByte ::
    (match x with
     | .Control flags delay trns =>
         [extensionControl, 4, flags % 256] ++ byteLE16 delay ++ [trns % 256]
     | .Repetitions r =>
         [extensionApplication, 11] ++
           [78, 69, 84, 83, 67, 65, 80, 69, 50, 46, 48] ++
           [3, 1] ++
           byteLE16 (match r with | .Finite n => n | .Infinite => 0)) ++
    [0]

/-- `Encoder::write_extension`: `Repetitions(Finite(0))` is a silent no-op;
otherwise the writer is required and the whole block is appended. -/
def Encoder.write_extension (e : Encoder) (x : ExtensionData) :
    Encoder × Option EncodingError :=
  match x with
  | .Repetitions (.Finite 0) => (e, none)
  | x =>
    match e.w with
    | none => (e, some .WriterNotFound)
    | some s => ({ e with w := some (s ++ extension_block_bytes x) }, none)

/-- `Encoder::write_screen_desc`: signature, width, height, flags byte,
background index `0`, aspect ratio `0`. -/
def Encoder.write_screen_desc (e : Encoder) (flags : Nat) :
    Encoder × Option EncodingError :=
  match e.w with
  | none => (e, some .WriterNotFound)
  | some s =>
    ({ e with
        w := some (s ++ gifSignature ++ byteLE16 e.width ++ byteLE16 e.height ++
          [flags % 256, 0, 0]) }, none)

/-- `Encoder::write_global_palette`: validate the palette, record whether a
(non-empty) global palette is present, then write the screen descriptor and
unconditionally the (possibly all-padding) color table. -/
def Encoder.write_global_palette (e : Encoder) (palette : List Nat) :
    Encoder × Option EncodingError :=
  let flags := (0 : Nat) ||| 128
  match check_color_table palette with
  | .error err => (e, some err)
  | .ok (table, padding, table_size) =>
    let e1 := { e with global_palette := !table.isEmpty }
    let flags := flags ||| table_size ||| (table_size <<< 4)
    match e1.write_screen_desc flags with
    | (e2, some err) => (e2, some err)
    | (e2, none) =>
      match e2.w with
      | none => (e2, some .WriterNotFound)
      | some s => ({ e2 with w := some (s ++ color_table_bytes table padding) }, none)

/-- `Encoder::new`: build the initial state and run `write_global_palette`.
(When the palette is rejected, Rust drops the partially built encoder, whose
`Drop` impl then appends the trailer to the moved-in sink; that drop effect
is modelled separately by `Encoder.dropWrites`.) -/
def Encoder.new (sink : List Nat) (width height : Nat) (palette : List Nat) :
    Except EncodingError Encoder :=
  let e0 : Encoder :=
    { w := some sink, global_palette := false, width := width, height := height,
      buffer := [] }
  match e0.write_global_palette palette with
  | (_, some err) => .error err
  | (e, none) => .ok e

/-- Fuel-driven model of the sub-block loop in
`Encoder::write_encoded_image_block`: `chunks_exact(0xFF)` emits each full
255-byte chunk prefixed by `0xFF`, then the non-empty remainder prefixed by
its length.  Fuel `data.length` suffices since every step consumes 255 bytes. -/
def subBlocksGo : Nat → List Nat → List Nat
  | 0, data => if data.length = 0 then [] else data.length :: data
  | fuel + 1, data =>
    if 255 ≤ data.length then
      (255 :: data.take 255) ++ subBlocksGo fuel (data.drop 255)
    else if data.length = 0 then [] else data.length :: data

/-- The length-prefixed sub-blocks for a compressed payload (terminator not
included). -/
def subBlocks (data : List Nat) : List Nat :=
  subBlocksGo data.length data

/-- Fuel-driven list of the greedy 255-byte chunks of a payload; used to state
the chunk decomposition of `subBlocks`. -/
def chunkListGo : Nat → List Nat → List (List Nat)
  | 0, data => if data.length = 0 then [] else [data]
  | fuel + 1, data =>
    if 255 ≤ data.length then
      data.take 255 :: chunkListGo fuel (data.drop 255)
    else if data.length = 0 then [] else [data]

/-- The greedy 255-byte chunk decomposition of a payload. -/
def chunkList (data : List Nat) : List (List Nat) :=
  chunkListGo data.length data

/-- `Encoder::write_encoded_image_block`: split off the min-code-size byte
(defaulting to `(2, [])` for an empty buffer), write it, then the sub-blocks,
then the `0x00` block terminator. -/
def encoded_image_block_bytes (data_with_min_code_size : List Nat) : List Nat :=
  match data_with_min_code_size with
  | [] => 2 % 256 :: (subBlocks [] ++ [0])
  | m :: data => m % 256 :: (subBlocks data ++ [0])

/-- The `max_byte` scan at the head of `lzw_encode`: track the running
maximum, breaking out early once a byte above 127 is seen (any such byte
already forces the maximal code size). -/
def scanMaxByte : List Nat → Nat → Nat
  | [], m => m
  | b :: rest, m =>
    if b > m then (if b > 127 then b else scanMaxByte rest b)
    else scanMaxByte rest m

/-- The maximum byte of a list (for relating the early-exit scan to the true
maximum in the spec formula). -/
def listMax (data : List Nat) : Nat := data.foldr max 0

/-- `lzw_encode` from `src/encoder.rs`: push the minimum code size
`max(max_byte + 1, 4).next_power_of_two().trailing_zeros()`, then the LZW
payload.  The LZW engine itself is the external `weezl` crate (an external
collaborator per spec section 1); its output bytes are abstracted by the
`lzwBody` parameter, applied uniformly at every call site.  Both call sites
in the source pass a cleared or fresh output buffer, so the result is exactly
the min-code-size byte followed by the engine output (`truncate(len + 1)`
keeps precisely those bytes). -/
def lzw_encode (lzwBody : Nat → List Nat → List Nat) (data : List Nat) : List Nat :=
  let max_byte := scanMaxByte data 0
  let palette_min_len := max_byte + 1
  let min_code_size := trailingZeros (nextPowTwo (max palette_min_len 4))
  min_code_size :: lzwBody min_code_size data

/-- The image-descriptor bytes written at the tail of
`Encoder::write_frame_header`: image separator, left, top, width, height,
flags, then the local color table when present. -/
def image_desc_tail (f : Frame) (flags : Nat) (pal : Option (List Nat × Nat)) :
    List Nat :=
  [blockImage % 256] ++ byteLE16 f.left ++ byteLE16 f.top ++
    byteLE16 f.width ++ byteLE16 f.height ++ [flags % 256] ++
    (match pal with
     | some (table, padding) => color_table_bytes table padding
     | none => [])

/-- The image-descriptor write at the tail of `Encoder::write_frame_header`
(requiring the writer, then appending `image_desc_tail`). -/
def Encoder.write_image_desc (e : Encoder) (f : Frame) (flags : Nat)
    (pal : Option (List Nat × Nat)) : Encoder × Option EncodingError :=
  match e.w with
  | none => (e, some .WriterNotFound)
  | some s => ({ e with w := some (s ++ image_desc_tail f flags pal) }, none)

/-- `Encoder::write_frame_header`: write the control extension, then resolve
the local/global palette (raising `TooManyColors` or `MissingColorPalette`),
then write the image descriptor and optional local color table. -/
def Encoder.write_frame_header (e : Encoder) (f : Frame) :
    Encoder × Option EncodingError :=
  match e.write_extension
      (ExtensionData.new_control_ext f.delay f.dispose f.needs_user_input
        f.transparent) with
  | (e1, some err) => (e1, some err)
  | (e1, none) =>
    let flags := if f.interlaced then (64 : Nat) else 0
    match f.palette with
    | some p =>
      match check_color_table p with
      | .error err => (e1, some err)
      | .ok (table, padding, table_size) =>
        e1.write_image_desc f (flags ||| 128 ||| table_size) (some (table, padding))
    | none =>
      if e1.global_palette then e1.write_image_desc f flags none
      else (e1, some (.Format .MissingColorPalette))

/-- The control-extension bytes written at the head of every frame
(`write_frame_header` builds this extension inline from the frame fields). -/
def ctrl_ext_bytes (f : Frame) : List Nat :=
  extension_block_bytes
    (ExtensionData.new_control_ext f.delay f.dispose f.needs_user_input
      f.transparent)

/-- `Encoder::write_image_block`: clear the scratch buffer, LZW-compress the
indices into it (`try_reserve` cannot fail over Lean lists, so the
`OutOfMemory` path is dead here), then frame the compressed bytes. -/
def Encoder.write_image_block (lzwBody : Nat → List Nat → List Nat)
    (e : Encoder) (data : List Nat) : Encoder × Option EncodingError :=
  let buf := lzw_encode lzwBody data
  let e1 := { e with buffer := buf }
  match e1.w with
  | none => (e1, some .WriterNotFound)
  | some s => ({ e1 with w := some (s ++ encoded_image_block_bytes buf) }, none)

/-- `Encoder::write_frame`: reject a buffer smaller than `width * height`
(the `checked_mul` cannot overflow for `u16` operands), then write the header
and the compressed image block. -/
def Encoder.write_frame (lzwBody : Nat → List Nat → List Nat) (e : Encoder)
    (f : Frame) : Encoder × Option EncodingError :=
  if f.buffer.length < f.width * f.height then
    (e, some .FrameBufferTooSmallForDimensions)
  else
    match e.write_frame_header f with
    | (e1, some err) => (e1, some err)
    | (e1, none) => e1.write_image_block lzwBody f.buffer

/-- `Encoder::write_lzw_pre_encoded_frame`: if the buffer has a first byte it
must be a min code size in `[2, 11]`; then write the header and the buffer
verbatim through the sub-block framer. -/
def Encoder.write_lzw_pre_encoded_frame (e : Encoder) (f : Frame) :
    Encoder × Option EncodingError :=
  let bad :=
    match f.buffer.head? with
    | some min_code_size => min_code_size > 11 || min_code_size < 2
    | none => false
  if bad then (e, some (.Format .InvalidMinCodeSize))
  else
    match e.write_frame_header f with
    | (e1, some err) => (e1, some err)
    | (e1, none) =>
      match e1.w with
      | none => (e1, some .WriterNotFound)
      | some s => ({ e1 with w := some (s ++ encoded_image_block_bytes f.buffer) }, none)

/-- `Frame::make_lzw_pre_encoded`: replace the buffer with its LZW-compressed
form (fresh output vector, so exactly `lzw_encode` of the old buffer). -/
def Frame.make_lzw_pre_encoded (lzwBody : Nat → List Nat → List Nat)
    (f : Frame) : Frame :=
  { f with buffer := lzw_encode lzwBody f.buffer }

/-- `Encoder::write_trailer`: append the single trailer byte. -/
def Encoder.write_trailer (e : Encoder) : Encoder × Option EncodingError :=
  match e.w with
  | none => (e, some .WriterNotFound)
  | some s => ({ e with w := some (s ++ [blockTrailer]) }, none)

/-- `Encoder::into_inner`: write the trailer, then take the sink out of the
encoder (leaving `w = none`, so a subsequent drop writes nothing). -/
def Encoder.into_inner (e : Encoder) : Encoder × Except EncodingError (List Nat) :=
  match e.write_trailer with
  | (e1, some err) => (e1, .error err)
  | (e1, none) =>
    match e1.w with
    | none => (e1, .error .WriterNotFound)
    | some s => ({ e1 with w := none }, .ok s)

/-- The bytes appended to the sink by `impl Drop for Encoder`: the trailer if
the sink is still present, nothing otherwise (both `raii_no_panic` and the
default drop write the trailer exactly when `w.is_some()`). -/
def Encoder.dropWrites (e : Encoder) : List Nat :=
  match e.w with
  | some _ => [blockTrailer]
  | none => []

/-- A caller-visible mutating operation between construction and
finalization: `write_frame` or `write_extension`. -/
inductive EncOp
  | frame (f : Frame)
  | ext (x : ExtensionData)
deriving Repr

/-- Apply one operation to the encoder. -/
def applyOp (lzwBody : Nat → List Nat → List Nat) (e : Encoder) :
    EncOp → Encoder × Option EncodingError
  | .frame f => e.write_frame lzwBody f
  | .ext x => e.write_extension x

/-- Run a sequence of operations, recording whether every call succeeded. -/
def runOps (lzwBody : Nat → List Nat → List Nat) (e : Encoder) :
    List EncOp → Encoder × Bool
  | [] => (e, true)
  | op :: rest =>
    let (e1, r) := applyOp lzwBody e op
    let (e2, ok) := runOps lzwBody e1 rest
    (e2, r.isNone && ok)

/-- Number of occurrences of `pat` as a contiguous byte substring of `s`. -/
def countOccurrences (pat s : List Nat) : Nat :=
  ((List.range (s.length + 1)).filter
    (fun i => (s.drop i).take pat.length == pat)).length

/-- Spec-side restatement of the `flag_size` table of spec section 3 /
section 8 invariant 1 (`n = 0..2 -> 0, 3..4 -> 1, ..., 129..256 -> 7`,
clamping above 256 to 7), to be compared with the source function. -/
def flagSizeTable (n : Nat) : Nat :=
  if n ≤ 2 then 0
  else if n ≤ 4 then 1
  else if n ≤ 8 then 2
  else if n ≤ 16 then 3
  else if n ≤ 32 then 4
  else if n ≤ 64 then 5
  else if n ≤ 128 then 6
  else 7

/-! ## Arithmetic facts about the code-size and table-size computations -/

/-- For arguments in `[4, 256]` (the only range `lzw_encode` produces), the
`trailing_zeros (next_power_of_two _)` composite is the exact base-2 logarithm
of the rounded-up power of two, and lies in `[2, 8]`. -/
theorem tzNpt_facts : ∀ a : Nat, a < 257 → 4 ≤ a →
    2 ≤ trailingZeros (nextPowTwo a) ∧ trailingZeros (nextPowTwo a) ≤ 8 ∧
    a ≤ 2 ^ trailingZeros (nextPowTwo a) ∧
    2 ^ trailingZeros (nextPowTwo a) = nextPowTwo a := by decide

/-- Rounding up to a power of two sends all of `[129, 256]` to `256`. -/
theorem nextPowTwo_high : ∀ a : Nat, a < 257 → 129 ≤ a → nextPowTwo a = 256 := by
  decide

/-- A color count of at most 256 fits inside the padded table
`2 << flag_size n`. -/
theorem le_shift_flag_size : ∀ n : Nat, n < 257 → n ≤ 2 <<< flag_size n := by
  decide

/-- `flag_size` agrees with the piecewise spec table on `[0, 300]`. -/
theorem flag_size_eq_table : ∀ n : Nat, n < 301 → flag_size n = flagSizeTable n := by
  decide

/-- Padding triples flatten to a run of zero bytes. -/
theorem flatten_replicate_triple (p : Nat) :
    List.flatten (List.replicate p [0, 0, 0]) = List.replicate (3 * p) (0 : Nat) := by
  induction p with
  | zero => rfl
  | succ k ih =>
    have h3 : 3 * (k + 1) = (3 * k) + 3 := by ring
    simp [List.replicate_succ, ih, h3, List.replicate_add]

/-! ## C1: the minimal file -/

/-- Claim C1 (amended): constructing with `w = 1, h = 1` and an empty global
palette and finalizing with `into_inner` emits the signature, the screen
descriptor with flags `0x80`, background `0`, aspect `0`, then the six zero
bytes of the always-written 2-entry padded global color table, then the
trailer: 20 bytes in all (`write_global_palette` calls `write_color_table`
unconditionally, so the padding triplets are emitted even for an empty
palette). -/
theorem c1_min_file_emits_padded_table :
    (Encoder.new [] 1 1 []).map (fun e => (Encoder.into_inner e).2) =
      .ok (.ok [71, 73, 70, 56, 57, 97, 1, 0, 1, 0, 128, 0, 0,
                0, 0, 0, 0, 0, 0, 59]) := rfl

/-- Claim C1 (counterexample to the claim as stated): the stream produced for
`w = 1, h = 1, palette = []` is the 20-byte stream above, which differs from
the claimed 14-byte stream `47 49 46 38 39 61 01 00 01 00 80 00 00 3B` (the
six padding bytes of the 2-entry global color table intervene). -/
theorem c1_spec_stream_refuted :
    (Encoder.new [] 1 1 []).map (fun e => (Encoder.into_inner e).2) =
      .ok (.ok [71, 73, 70, 56, 57, 97, 1, 0, 1, 0, 128, 0, 0,
                0, 0, 0, 0, 0, 0, 59]) ∧
    ([71, 73, 70, 56, 57, 97, 1, 0, 1, 0, 128, 0, 0,
      0, 0, 0, 0, 0, 0, 59] : List Nat) ≠
      [71, 73, 70, 56, 57, 97, 1, 0, 1, 0, 128, 0, 0, 59] :=
  ⟨rfl, by decide⟩

/-! ## C7: color-table validation -/

/-- `check_color_table` on at most 256 triplets: the success value. -/
theorem check_color_table_ok (table : List Nat) (h : table.length / 3 ≤ 256) :
    check_color_table table =
      .ok (table.take (table.length / 3 * 3),
           (2 <<< flag_size (table.length / 3)) - table.length / 3,
           flag_size (table.length / 3)) := by
  simp only [check_color_table]
  rw [if_neg (by omega)]

/-- `check_color_table` on more than 256 triplets: the failure value. -/
theorem check_color_table_err (table : List Nat) (h : 256 < table.length / 3) :
    check_color_table table = .error (.Format .TooManyColors) := by
  simp only [check_color_table]
  rw [if_pos h]

/-- Claim C7 (amended): `check_color_table` fails with `TooManyColors` exactly
when the number of whole triplets `len / 3` exceeds 256; the length is never
required to be a multiple of 3, and on success the excess bytes past
`(len / 3) * 3` are dropped from the returned slice (hence never emitted). -/
theorem c7_color_table_validation (table : List Nat) :
    (256 < table.length / 3 →
      check_color_table table = .error (.Format .TooManyColors)) ∧
    (table.length / 3 ≤ 256 →
      check_color_table table =
        .ok (table.take (table.length / 3 * 3),
             (2 <<< flag_size (table.length / 3)) - table.length / 3,
             flag_size (table.length / 3))) :=
  ⟨check_color_table_err table, check_color_table_ok table⟩

/-- Witness for C7 at the 4-byte table `[0, 0, 0, 0]`. -/
theorem c7_witness :
    ([0, 0, 0, 0] : List Nat).length / 3 ≤ 256 ∧
    check_color_table [0, 0, 0, 0] = .ok ([0, 0, 0], 1, 0) := by
  refine ⟨by decide, ?_⟩
  have h := (c7_color_table_validation [0, 0, 0, 0]).2 (by decide)
  simpa using h

/-- Claim C7 (counterexample to the claim as stated): a table of length 4 is
not a multiple of 3 long, yet validation succeeds (the trailing byte is
silently dropped), contradicting "fails ... when the length is not a multiple
of 3". -/
theorem c7_non_multiple_of_three_refuted :
    check_color_table [0, 0, 0, 0] = .ok ([0, 0, 0], 1, 0) ∧ (4 : Nat) % 3 ≠ 0 :=
  ⟨rfl, by decide⟩

/-! ## C5: flag_size and table padding -/

/-- Claim C5: `flag_size` matches the piecewise spec table on `[0, 300]`
(clamping above 256 to 7); for any palette with at most 256 whole triplets,
`check_color_table` then `write_color_table` emits the `n` real triplets
followed by `2^(flag_size n + 1) - n` zero triplets, `3 * 2^(flag_size n + 1)`
bytes in all; in particular 5 triplets give `flag_size 2` and 24 bytes. -/
theorem c5_flag_size_and_padding :
    (∀ n, n ≤ 300 → flag_size n = flagSizeTable n) ∧
    (∀ table : List Nat, table.length / 3 ≤ 256 →
      check_color_table table =
        .ok (table.take (table.length / 3 * 3),
             2 ^ (flag_size (table.length / 3) + 1) - table.length / 3,
             flag_size (table.length / 3)) ∧
      color_table_bytes (table.take (table.length / 3 * 3))
          (2 ^ (flag_size (table.length / 3) + 1) - table.length / 3) =
        table.take (table.length / 3 * 3) ++
          List.replicate (3 * (2 ^ (flag_size (table.length / 3) + 1) -
            table.length / 3)) 0 ∧
      (color_table_bytes (table.take (table.length / 3 * 3))
          (2 ^ (flag_size (table.length / 3) + 1) - table.length / 3)).length =
        3 * 2 ^ (flag_size (table.length / 3) + 1)) ∧
    (flag_size 5 = 2 ∧
      (color_table_bytes (List.replicate 15 1) (2 ^ (flag_size 5 + 1) - 5)).length
        = 24) := by
  refine ⟨?_, ?_, by decide, by decide⟩
  · intro n hn
    exact flag_size_eq_table n (by omega)
  · intro table hn
    have hshift : (2 <<< flag_size (table.length / 3)) =
        2 ^ (flag_size (table.length / 3) + 1) := by
      rw [Nat.shiftLeft_eq, pow_succ]
      ring
    have hle : table.length / 3 ≤ 2 ^ (flag_size (table.length / 3) + 1) := by
      have := le_shift_flag_size (table.length / 3) (by omega)
      omega
    have htk : (table.take (table.length / 3 * 3)).length = table.length / 3 * 3 := by
      rw [List.length_take]
      have := Nat.div_mul_le_self table.length 3
      omega
    refine ⟨?_, ?_, ?_⟩
    · have h := check_color_table_ok table hn
      rw [h, hshift]
    · simp [color_table_bytes, flatten_replicate_triple]
    · simp [color_table_bytes, flatten_replicate_triple, htk]
      omega

/-- Witness for C5 at `n = 5` and the 15-byte table `replicate 15 1`. -/
theorem c5_witness :
    (5 ≤ 300 ∧ flag_size 5 = flagSizeTable 5) ∧
    ((List.replicate 15 (1 : Nat)).length / 3 ≤ 256 ∧
      check_color_table (List.replicate 15 1) = .ok (List.replicate 15 1, 3, 2)) := by
  refine ⟨⟨by decide, c5_flag_size_and_padding.1 5 (by decide)⟩, by decide, ?_⟩
  have h := (c5_flag_size_and_padding.2.1 (List.replicate 15 (1 : Nat))
    (by decide)).1
  simpa using h

/-! ## C4: sub-block framing -/

/-- The sub-block loop is fuel-irrelevant once the fuel covers the payload
length. -/
theorem subBlocksGo_fuel : ∀ (f1 : Nat) (S : List Nat) (f2 : Nat),
    S.length ≤ f1 → S.length ≤ f2 → subBlocksGo f1 S = subBlocksGo f2 S := by
  intro f1
  induction f1 with
  | zero =>
    intro S f2 h1 _
    have hS : S.length = 0 := by omega
    cases f2 with
    | zero => rfl
    | succ k => simp [subBlocksGo, hS]
  | succ k ih =>
    intro S f2 h1 h2
    cases f2 with
    | zero =>
      have hS : S.length = 0 := by omega
      simp [subBlocksGo, hS]
    | succ k2 =>
      simp only [subBlocksGo]
      by_cases h255 : 255 ≤ S.length
      · rw [if_pos h255, if_pos h255]
        have hd : (S.drop 255).length = S.length - 255 := by
          simp [List.length_drop]
        rw [ih (S.drop 255) k2 (by omega) (by omega)]
      · rw [if_neg h255, if_neg h255]

/-- One-step unfolding of `subBlocks` without fuel bookkeeping. -/
theorem subBlocks_unfold (S : List Nat) :
    subBlocks S =
      if 255 ≤ S.length then (255 :: S.take 255) ++ subBlocks (S.drop 255)
      else if S.length = 0 then [] else S.length :: S := by
  by_cases h255 : 255 ≤ S.length
  · rw [if_pos h255]
    obtain ⟨k, hk⟩ : ∃ k, S.length = k + 1 := ⟨S.length - 1, by omega⟩
    have hd : (S.drop 255).length = S.length - 255 := by
      simp [List.length_drop]
    calc subBlocks S = subBlocksGo S.length S := rfl
      _ = subBlocksGo (k + 1) S := by rw [hk]
      _ = (255 :: S.take 255) ++ subBlocksGo k (S.drop 255) := by
          simp only [subBlocksGo]
          rw [if_pos h255]
      _ = (255 :: S.take 255) ++ subBlocksGo (S.drop 255).length (S.drop 255) := by
          rw [subBlocksGo_fuel k (S.drop 255) (S.drop 255).length
            (by omega) (by omega)]
  · rw [if_neg h255]
    cases hl : S.length with
    | zero =>
      rw [if_pos rfl]
      have : S = [] := List.eq_nil_of_length_eq_zero hl
      subst this
      rfl
    | succ k =>
      rw [if_neg (by omega)]
      calc subBlocks S = subBlocksGo S.length S := rfl
        _ = subBlocksGo (k + 1) S := by rw [hl]
        _ = (k + 1) :: S := by
            simp only [subBlocksGo]
            rw [if_neg (by omega), if_neg (by omega), hl]

/-- The sub-block loop emits exactly the greedy chunks, each prefixed by its
length (valid at every fuel). -/
theorem subBlocksGo_eq_chunks : ∀ (fuel : Nat) (S : List Nat),
    subBlocksGo fuel S =
      ((chunkListGo fuel S).map (fun c => c.length :: c)).flatten := by
  intro fuel
  induction fuel with
  | zero =>
    intro S
    by_cases h : S.length = 0
    · simp [subBlocksGo, chunkListGo, h]
    · simp [subBlocksGo, chunkListGo, h]
  | succ k ih =>
    intro S
    by_cases h255 : 255 ≤ S.length
    · have htk : (S.take 255).length = 255 := by
        simp [List.length_take]
        omega
      simp only [subBlocksGo, chunkListGo]
      rw [if_pos h255, if_pos h255]
      simp [ih, htk]
    · by_cases h : S.length = 0
      · simp [subBlocksGo, chunkListGo, h255, h]
      · simp [subBlocksGo, chunkListGo, h255, h]

/-- The greedy chunks concatenate back to the payload (valid at every fuel). -/
theorem chunkListGo_flatten : ∀ (fuel : Nat) (S : List Nat),
    (chunkListGo fuel S).flatten = S := by
  intro fuel
  induction fuel with
  | zero =>
    intro S
    by_cases h : S.length = 0
    · have : S = [] := List.eq_nil_of_length_eq_zero h
      simp [chunkListGo, this]
    · simp [chunkListGo, h]
  | succ k ih =>
    intro S
    by_cases h255 : 255 ≤ S.length
    · simp only [chunkListGo]
      rw [if_pos h255]
      simp [ih]
    · by_cases h : S.length = 0
      · have : S = [] := List.eq_nil_of_length_eq_zero h
        simp [chunkListGo, this]
      · simp [chunkListGo, h255, h]

/-- Every greedy chunk is non-empty and at most 255 bytes (fuel covering the
payload). -/
theorem chunkListGo_bounds : ∀ (fuel : Nat) (S : List Nat),
    S.length ≤ fuel → ∀ c ∈ chunkListGo fuel S, 1 ≤ c.length ∧ c.length ≤ 255 := by
  intro fuel
  induction fuel with
  | zero =>
    intro S h c hc
    have hS : S.length = 0 := by omega
    simp [chunkListGo, hS] at hc
  | succ k ih =>
    intro S h c hc
    by_cases h255 : 255 ≤ S.length
    · simp only [chunkListGo] at hc
      rw [if_pos h255] at hc
      rcases List.mem_cons.mp hc with hc | hc
      · subst hc
        have : (S.take 255).length = 255 := by
          simp [List.length_take]
          omega
        omega
      · have hd : (S.drop 255).length = S.length - 255 := by
          simp [List.length_drop]
        exact ih (S.drop 255) (by omega) c hc
    · by_cases h0 : S.length = 0
      · simp [chunkListGo, h255, h0] at hc
      · simp only [chunkListGo] at hc
        rw [if_neg h255, if_neg h0] at hc
        rcases List.mem_singleton.mp hc with rfl
        omega

/-- Claim C4: the image-data framer emits the payload after the min-code-size
byte as greedy length-prefixed chunks of 1 to 255 bytes followed by a single
`0x00` terminator; an empty payload yields just the terminator; a 510-byte
payload yields `FF <255B> FF <255B> 00` and a 511-byte payload yields
`FF <255B> FF <255B> 01 <1B> 00`. -/
theorem c4_sub_block_framing (m : Nat) (S : List Nat) :
    (encoded_image_block_bytes (m :: S) =
      m % 256 :: (((chunkList S).map (fun c => c.length :: c)).flatten ++ [0])) ∧
    ((chunkList S).flatten = S) ∧
    (∀ c ∈ chunkList S, 1 ≤ c.length ∧ c.length ≤ 255) ∧
    (S = [] → encoded_image_block_bytes (m :: S) = [m % 256, 0]) ∧
    (S.length = 510 →
      encoded_image_block_bytes (m :: S) =
        [m % 256] ++ [255] ++ S.take 255 ++ [255] ++ S.drop 255 ++ [0]) ∧
    (S.length = 511 →
      encoded_image_block_bytes (m :: S) =
        [m % 256] ++ [255] ++ S.take 255 ++ [255] ++ (S.drop 255).take 255 ++
          [1] ++ S.drop 510 ++ [0]) := by
  have hblock : encoded_image_block_bytes (m :: S) = m % 256 :: (subBlocks S ++ [0]) :=
    rfl
  refine ⟨?_, chunkListGo_flatten S.length S,
    chunkListGo_bounds S.length S le_rfl, ?_, ?_, ?_⟩
  · rw [hblock, subBlocks, subBlocksGo_eq_chunks]
    rfl
  · rintro rfl
    rfl
  · intro h510
    have hd1 : (S.drop 255).length = 255 := by
      simp [List.length_drop, h510]
    have hd2 : ((S.drop 255).drop 255) = [] := by
      apply List.eq_nil_of_length_eq_zero
      simp [List.length_drop, h510]
    rw [hblock, subBlocks_unfold]
    rw [if_pos (by omega)]
    rw [subBlocks_unfold]
    rw [if_pos (by omega)]
    rw [hd2]
    have htk : (S.drop 255).take 255 = S.drop 255 :=
      List.take_of_length_le (by omega)
    simp [subBlocks, subBlocksGo, htk]
  · intro h511
    have hd1 : (S.drop 255).length = 256 := by
      simp [List.length_drop, h511]
    have hd2 : ((S.drop 255).drop 255).length = 1 := by
      simp [List.length_drop, h511]
    have hdd : (S.drop 255).drop 255 = S.drop 510 := by
      rw [List.drop_drop]
    rw [hblock, subBlocks_unfold]
    rw [if_pos (by omega)]
    rw [subBlocks_unfold]
    rw [if_pos (by omega)]
    rw [subBlocks_unfold]
    rw [if_neg (by omega), if_neg (by omega)]
    rw [hdd] at hd2 ⊢
    simp [hd2]

/-- Witness for C4 at a concrete 510-byte payload. -/
theorem c4_witness :
    (List.replicate 510 (7 : Nat)).length = 510 ∧
    encoded_image_block_bytes (8 :: List.replicate 510 7) =
      [8 % 256] ++ [255] ++ (List.replicate 510 (7 : Nat)).take 255 ++ [255] ++
        (List.replicate 510 (7 : Nat)).drop 255 ++ [0] :=
  ⟨by decide, (c4_sub_block_framing 8 (List.replicate 510 7)).2.2.2.2.1 (by decide)⟩

/-! ## C3: minimum code size -/

/-- The fold maximum dominates its initial value. -/
theorem foldr_max_init_le (l : List Nat) (m : Nat) : m ≤ l.foldr max m := by
  induction l with
  | nil => exact le_rfl
  | cons b rest ih => exact le_trans ih (le_max_right b (rest.foldr max m))

/-- The fold maximum of bytes below 256 stays below 256. -/
theorem foldr_max_lt (l : List Nat) (m : Nat) (h : ∀ b ∈ l, b < 256)
    (hm : m < 256) : l.foldr max m < 256 := by
  induction l with
  | nil => exact hm
  | cons b rest ih =>
    exact max_lt (h b (List.mem_cons_self b rest))
      (ih (fun c hc => h c (List.mem_cons_of_mem b hc)))

/-- Raising the initial value of a maximum fold to a dominating `b` factors
out as `max b`. -/
theorem foldr_max_absorb (l : List Nat) (m b : Nat) (h : m ≤ b) :
    l.foldr max b = max b (l.foldr max m) := by
  induction l with
  | nil => simp [Nat.max_eq_left h]
  | cons c rest ih =>
    simp only [List.foldr]
    rw [ih, max_left_comm]

/-- The early-exit scan of `lzw_encode` either computes the exact maximum or
stops early at a value above 127 that is still below the exact maximum. -/
theorem scanMaxByte_cases : ∀ (l : List Nat) (m : Nat),
    scanMaxByte l m = l.foldr max m ∨
      (127 < scanMaxByte l m ∧ scanMaxByte l m ≤ l.foldr max m) := by
  intro l
  induction l with
  | nil => intro m; left; rfl
  | cons b rest ih =>
    intro m
    simp only [scanMaxByte, List.foldr]
    by_cases hbm : b > m
    · rw [if_pos hbm]
      by_cases hb127 : b > 127
      · rw [if_pos hb127]
        exact Or.inr ⟨hb127, le_max_left b (rest.foldr max m)⟩
      · rw [if_neg hb127]
        have habs := foldr_max_absorb rest m b (le_of_lt hbm)
        rcases ih b with h | ⟨h1, h2⟩
        · left; rw [h, habs]
        · right; exact ⟨h1, habs ▸ h2⟩
    · rw [if_neg hbm]
      have heat : max b (rest.foldr max m) = rest.foldr max m :=
        max_eq_right (le_trans (by omega) (foldr_max_init_le rest m))
      rcases ih m with h | ⟨h1, h2⟩
      · left; rw [h, heat]
      · right; exact ⟨h1, le_trans h2 (le_max_right b (rest.foldr max m))⟩

/-- The early-exit scan yields the same minimum code size as the exact
maximum: either the scan is exact, or both values are above 127 and both
round up to 256. -/
theorem minCodeSize_scan_eq (data : List Nat) (h : ∀ b ∈ data, b < 256) :
    trailingZeros (nextPowTwo (max (scanMaxByte data 0 + 1) 4)) =
      trailingZeros (nextPowTwo (max (listMax data + 1) 4)) := by
  rcases scanMaxByte_cases data 0 with heq | ⟨h127, hle⟩
  · rw [heq]; rfl
  · have hM : listMax data < 256 := foldr_max_lt data 0 h (by omega)
    have hle2 : scanMaxByte data 0 ≤ listMax data := hle
    rw [max_eq_left (by omega : (4 : Nat) ≤ scanMaxByte data 0 + 1),
        max_eq_left (by omega : (4 : Nat) ≤ listMax data + 1)]
    rw [nextPowTwo_high (scanMaxByte data 0 + 1) (by omega) (by omega),
        nextPowTwo_high (listMax data + 1) (by omega) (by omega)]

/-- Claim C3: for byte input, the first byte of the `lzw_encode` output is
`trailing_zeros (next_power_of_two (max (M + 1) 4))` where `M` is the maximum
input byte; that value is the exact base-2 logarithm of the rounded-up power
of two, lies in `[2, 8]`, satisfies `2^s > M`, and is 2 for empty input. -/
theorem c3_min_code_size_first_byte (lzwBody : Nat → List Nat → List Nat)
    (data : List Nat) (h : ∀ b ∈ data, b < 256) :
    (lzw_encode lzwBody data).head? =
      some (trailingZeros (nextPowTwo (max (listMax data + 1) 4))) ∧
    2 ≤ trailingZeros (nextPowTwo (max (listMax data + 1) 4)) ∧
    trailingZeros (nextPowTwo (max (listMax data + 1) 4)) ≤ 8 ∧
    listMax data < 2 ^ trailingZeros (nextPowTwo (max (listMax data + 1) 4)) ∧
    2 ^ trailingZeros (nextPowTwo (max (listMax data + 1) 4)) =
      nextPowTwo (max (listMax data + 1) 4) ∧
    (data = [] → trailingZeros (nextPowTwo (max (listMax data + 1) 4)) = 2) := by
  have hM : listMax data < 256 := foldr_max_lt data 0 h (by omega)
  have ha4 : 4 ≤ max (listMax data + 1) 4 := le_max_right _ 4
  have ha : max (listMax data + 1) 4 < 257 := by
    have : listMax data + 1 ≤ 256 := by omega
    omega
  obtain ⟨hf1, hf2, hf3, hf4⟩ := tzNpt_facts (max (listMax data + 1) 4) ha ha4
  refine ⟨?_, hf1, hf2, ?_, hf4, ?_⟩
  · show some (trailingZeros (nextPowTwo (max (scanMaxByte data 0 + 1) 4))) = _
    rw [minCodeSize_scan_eq data h]
  · have : listMax data + 1 ≤ max (listMax data + 1) 4 := le_max_left _ 4
    omega
  · rintro rfl
    rfl

/-- Witness for C3 at the one-byte input `[5]`. -/
theorem c3_witness :
    (∀ b ∈ [(5 : Nat)], b < 256) ∧
    (lzw_encode (fun _ _ => []) [5]).head? =
      some (trailingZeros (nextPowTwo (max (listMax [5] + 1) 4))) :=
  ⟨by decide, (c3_min_code_size_first_byte (fun _ _ => []) [5] (by decide)).1⟩

/-! ## Encoder operation analysis and claims C2, C6, C8, C9, C10 -/

theorem map_append_nil (o : Option (List Nat)) :
    o.map (fun s => s ++ ([] : List Nat)) = o := by cases o <;> simp

theorem write_extension_ctrl_some (e : Encoder) (delay : Nat) (dp : DisposalMethod)
    (nui : Bool) (tr : Option Nat) (s : List Nat) (h : e.w = some s) :
    e.write_extension (ExtensionData.new_control_ext delay dp nui tr) =
      ({ e with w := some (s ++ extension_block_bytes
          (ExtensionData.new_control_ext delay dp nui tr)) }, none) := by
  cases tr <;> simp [ExtensionData.new_control_ext, Encoder.write_extension, h]

theorem write_extension_ctrl_none (e : Encoder) (delay : Nat) (dp : DisposalMethod)
    (nui : Bool) (tr : Option Nat) (h : e.w = none) :
    e.write_extension (ExtensionData.new_control_ext delay dp nui tr) =
      (e, some .WriterNotFound) := by
  cases tr <;> simp [ExtensionData.new_control_ext, Encoder.write_extension, h]

theorem check_color_table_error (t : List Nat) (err : EncodingError)
    (h : check_color_table t = .error err) : err = .Format .TooManyColors := by
  by_cases h3 : 256 < t.length / 3
  · rw [check_color_table_err t h3] at h
    exact (Except.error.inj h).symm
  · rw [check_color_table_ok t (by omega)] at h
    exact Except.noConfusion h

theorem write_frame_header_cases (e : Encoder) (f : Frame) :
    (e.w = none ∧ e.write_frame_header f = (e, some .WriterNotFound)) ∨
    (∃ s, e.w = some s ∧
      ((∃ err, e.write_frame_header f =
          ({ e with w := some (s ++ ctrl_ext_bytes f) }, some (.Format err)) ∧
          (err = .TooManyColors ∨ err = .MissingColorPalette)) ∨
       (∃ d, e.write_frame_header f =
          ({ e with w := some (s ++ ctrl_ext_bytes f ++ d) }, none)))) := by
  cases hw : e.w with
  | none =>
    left
    refine ⟨rfl, ?_⟩
    simp only [Encoder.write_frame_header]
    rw [write_extension_ctrl_none e f.delay f.dispose f.needs_user_input
      f.transparent hw]
  | some s =>
    right
    refine ⟨s, rfl, ?_⟩
    simp only [Encoder.write_frame_header]
    rw [write_extension_ctrl_some e f.delay f.dispose f.needs_user_input
      f.transparent s hw]
    cases hp : f.palette with
    | none =>
      cases hg : e.global_palette with
      | true =>
        right
        refine ⟨image_desc_tail f (if f.interlaced then (64 : Nat) else 0) none, ?_⟩
        simp [Encoder.write_image_desc, hg, ctrl_ext_bytes]
      | false =>
        left
        exact ⟨.MissingColorPalette, by simp [hg, ctrl_ext_bytes], Or.inr rfl⟩
    | some p =>
      cases hc : check_color_table p with
      | error err =>
        left
        have herr := check_color_table_error p err hc
        subst herr
        exact ⟨.TooManyColors, by simp [hc, ctrl_ext_bytes], Or.inl rfl⟩
      | ok v =>
        obtain ⟨t, pad, ts⟩ := v
        right
        refine ⟨image_desc_tail f
          ((if f.interlaced then (64 : Nat) else 0) ||| 128 ||| ts)
          (some (t, pad)), ?_⟩
        simp [hc, Encoder.write_image_desc, ctrl_ext_bytes]

theorem write_frame_header_success (e : Encoder) (f : Frame) (s : List Nat)
    (hw : e.w = some s)
    (hpal : (f.palette = none ∧ e.global_palette = true) ∨
      (∃ p, f.palette = some p ∧ p.length / 3 ≤ 256)) :
    ∃ d, e.write_frame_header f =
      ({ e with w := some (s ++ ctrl_ext_bytes f ++ d) }, none) := by
  simp only [Encoder.write_frame_header]
  rw [write_extension_ctrl_some e f.delay f.dispose f.needs_user_input
    f.transparent s hw]
  rcases hpal with ⟨hpn, hg⟩ | ⟨p, hps, hn⟩
  · rw [hpn]
    refine ⟨image_desc_tail f (if f.interlaced then (64 : Nat) else 0) none, ?_⟩
    simp [Encoder.write_image_desc, hg, ctrl_ext_bytes]
  · rw [hps]
    dsimp only
    rw [check_color_table_ok p hn]
    refine ⟨image_desc_tail f
      ((if f.interlaced then (64 : Nat) else 0) ||| 128 |||
        flag_size (p.length / 3))
      (some (p.take (p.length / 3 * 3),
        (2 <<< flag_size (p.length / 3)) - p.length / 3)), ?_⟩
    simp [Encoder.write_image_desc, ctrl_ext_bytes]

theorem write_frame_header_no_imcs (e : Encoder) (f : Frame) :
    (e.write_frame_header f).2 ≠ some (.Format .InvalidMinCodeSize) := by
  rcases write_frame_header_cases e f with ⟨_, hh⟩ |
    ⟨s, hws, ⟨err, hh, herr⟩ | ⟨d, hh⟩⟩ <;> rw [hh] <;> simp
  rcases herr with rfl | rfl <;> simp

/-- Claim C10: for a frame with an empty buffer the pre-encoded write path
skips the min-code-size validation entirely (no `InvalidMinCodeSize` is
possible), performs no buffer-versus-dimensions check, and (given an
available color palette) succeeds, emitting exactly the two bytes
`0x02 0x00` as the image-data section after the frame header. -/
theorem c10_empty_buffer_pre_encoded (e : Encoder) (f : Frame) (s : List Nat)
    (hbuf : f.buffer = []) :
    ((e.write_lzw_pre_encoded_frame f).2 ≠ some (.Format .InvalidMinCodeSize)) ∧
    (e.w = some s →
      ((f.palette = none ∧ e.global_palette = true) ∨
        (∃ p, f.palette = some p ∧ p.length / 3 ≤ 256)) →
      ∃ e1 s1, e.write_frame_header f = (e1, none) ∧ e1.w = some s1 ∧
        e.write_lzw_pre_encoded_frame f = ({ e1 with w := some (s1 ++ [2, 0]) }, none)) := by
  constructor
  · simp only [Encoder.write_lzw_pre_encoded_frame, hbuf]
    simp only [List.head?]
    rcases hh : e.write_frame_header f with ⟨e1, r⟩
    cases r with
    | some err =>
      have := write_frame_header_no_imcs e f
      rw [hh] at this
      simpa using this
    | none =>
      cases hw1 : e1.w <;> simp [hw1]
  · intro hw hpal
    obtain ⟨d, hh⟩ := write_frame_header_success e f s hw hpal
    refine ⟨{ e with w := some (s ++ ctrl_ext_bytes f ++ d) },
      s ++ ctrl_ext_bytes f ++ d, hh, rfl, ?_⟩
    simp only [Encoder.write_lzw_pre_encoded_frame, hbuf]
    simp only [List.head?]
    rw [hh]
    rfl

/-- Outcome analysis of `write_lzw_pre_encoded_frame`. -/
theorem write_lzw_pre_shape (e : Encoder) (f : Frame) :
    (∃ b, f.buffer.head? = some b ∧ (b < 2 ∨ 11 < b) ∧
      e.write_lzw_pre_encoded_frame f = (e, some (.Format .InvalidMinCodeSize))) ∨
    ((∀ b, f.buffer.head? = some b → 2 ≤ b ∧ b ≤ 11) ∧
      ((∃ e1 err, e.write_frame_header f = (e1, some err) ∧
          e.write_lzw_pre_encoded_frame f = (e1, some err)) ∨
       (∃ e1, e.write_frame_header f = (e1, none) ∧ e1.w = none ∧
          e.write_lzw_pre_encoded_frame f = (e1, some .WriterNotFound)) ∨
       (∃ e1 s, e.write_frame_header f = (e1, none) ∧ e1.w = some s ∧
          e.write_lzw_pre_encoded_frame f =
            ({ e1 with w := some (s ++ encoded_image_block_bytes f.buffer) },
              none)))) := by
  have hsplit : (∃ b, f.buffer.head? = some b ∧ (b < 2 ∨ 11 < b)) ∨
      (∀ b, f.buffer.head? = some b → 2 ≤ b ∧ b ≤ 11) := by
    cases hb : f.buffer.head? with
    | none => exact Or.inr (fun b hbb => by cases hbb)
    | some b =>
      by_cases hr : b < 2 ∨ 11 < b
      · exact Or.inl ⟨b, rfl, hr⟩
      · refine Or.inr (fun c hcc => ?_)
        cases Option.some.inj hcc
        omega
  rcases hsplit with ⟨b, hb, hr⟩ | hgood
  · left
    refine ⟨b, hb, hr, ?_⟩
    simp only [Encoder.write_lzw_pre_encoded_frame]
    rw [hb]
    dsimp only
    rw [if_pos (by simp; omega)]
  · right
    refine ⟨hgood, ?_⟩
    have hbadfalse : e.write_lzw_pre_encoded_frame f =
        (match e.write_frame_header f with
         | (e1, some err) => (e1, some err)
         | (e1, none) =>
           match e1.w with
           | none => (e1, some .WriterNotFound)
           | some s =>
             ({ e1 with w := some (s ++ encoded_image_block_bytes f.buffer) },
               none)) := by
      simp only [Encoder.write_lzw_pre_encoded_frame]
      cases hb : f.buffer.head? with
      | none => rfl
      | some b =>
        obtain ⟨h2, h11⟩ := hgood b hb
        dsimp only
        rw [if_neg (by simp; omega)]
    rcases hh : e.write_frame_header f with ⟨e1, r⟩
    rw [hh] at hbadfalse
    cases r with
    | some err =>
      left
      refine ⟨e1, err, rfl, ?_⟩
      rw [hbadfalse]
    | none =>
      cases hw1 : e1.w with
      | none =>
        right; left
        refine ⟨e1, rfl, hw1, ?_⟩
        rw [hbadfalse]
        dsimp only
        rw [hw1]
      | some s =>
        right; right
        refine ⟨e1, s, rfl, hw1, ?_⟩
        rw [hbadfalse]
        dsimp only
        rw [hw1]

/-- Outcome analysis of `write_frame`. -/
theorem write_frame_shape (lzwBody : Nat → List Nat → List Nat) (e : Encoder)
    (f : Frame) :
    (f.buffer.length < f.width * f.height ∧
      e.write_frame lzwBody f = (e, some .FrameBufferTooSmallForDimensions)) ∨
    (f.width * f.height ≤ f.buffer.length ∧
      ((∃ e1 err, e.write_frame_header f = (e1, some err) ∧
          e.write_frame lzwBody f = (e1, some err)) ∨
       (∃ e1, e.write_frame_header f = (e1, none) ∧ e1.w = none ∧
          e.write_frame lzwBody f =
            ({ e1 with buffer := lzw_encode lzwBody f.buffer },
              some .WriterNotFound)) ∨
       (∃ e1 s, e.write_frame_header f = (e1, none) ∧ e1.w = some s ∧
          e.write_frame lzwBody f =
            ({ e1 with buffer := lzw_encode lzwBody f.buffer, w := some (s ++ encoded_image_block_bytes (lzw_encode lzwBody f.buffer)) }, none)))) := by
  by_cases hsize : f.buffer.length < f.width * f.height
  · left
    refine ⟨hsize, ?_⟩
    simp only [Encoder.write_frame]
    rw [if_pos hsize]
  · right
    refine ⟨by omega, ?_⟩
    have hfr : e.write_frame lzwBody f =
        (match e.write_frame_header f with
         | (e1, some err) => (e1, some err)
         | (e1, none) => e1.write_image_block lzwBody f.buffer) := by
      simp only [Encoder.write_frame]
      rw [if_neg hsize]
    rcases hh : e.write_frame_header f with ⟨e1, r⟩
    rw [hh] at hfr
    cases r with
    | some err =>
      left
      refine ⟨e1, err, rfl, ?_⟩
      rw [hfr]
    | none =>
      cases hw1 : e1.w with
      | none =>
        right; left
        refine ⟨e1, rfl, hw1, ?_⟩
        rw [hfr]
        simp only [Encoder.write_image_block]
        rw [hw1]
      | some s =>
        right; right
        refine ⟨e1, s, rfl, hw1, ?_⟩
        rw [hfr]
        simp only [Encoder.write_image_block]
        rw [hw1]

theorem lzwpre_not_imcs (e : Encoder) (f : Frame)
    (hgood : ∀ b, f.buffer.head? = some b → 2 ≤ b ∧ b ≤ 11) :
    (e.write_lzw_pre_encoded_frame f).2 ≠ some (.Format .InvalidMinCodeSize) := by
  rcases write_lzw_pre_shape e f with ⟨b, hb, hr, heq⟩ | ⟨_, hcases⟩
  · obtain ⟨h2, h11⟩ := hgood b hb
    omega
  · rcases hcases with ⟨e1, err, hh, heq⟩ | ⟨e1, hh, hw1, heq⟩ | ⟨e1, s, hh, hw1, heq⟩
    · rw [heq]
      have hni := write_frame_header_no_imcs e f
      rw [hh] at hni
      exact hni
    · rw [heq]
      simp
    · rw [heq]
      simp

/-- Claim C8: `write_lzw_pre_encoded_frame` fails with
`Format(InvalidMinCodeSize)` exactly when the buffer has a first byte `b`
with `b < 2` or `b > 11`; any first byte in `[2, 11]` passes that
validation. -/
theorem c8_min_code_size_validation (e : Encoder) (f : Frame) :
    ((e.write_lzw_pre_encoded_frame f).2 = some (.Format .InvalidMinCodeSize) ↔
      ∃ b, f.buffer.head? = some b ∧ (b < 2 ∨ 11 < b)) ∧
    (∀ b, f.buffer.head? = some b → 2 ≤ b → b ≤ 11 →
      (e.write_lzw_pre_encoded_frame f).2 ≠ some (.Format .InvalidMinCodeSize)) := by
  constructor
  · constructor
    · intro hres
      by_contra hnone
      push_neg at hnone
      refine lzwpre_not_imcs e f (fun b hb => ?_) hres
      have := hnone b hb
      omega
    · rintro ⟨b, hb, hr⟩
      rcases write_lzw_pre_shape e f with ⟨b2, hb2, hr2, heq⟩ | ⟨hgood, _⟩
      · rw [heq]
      · obtain ⟨h2, h11⟩ := hgood b hb
        omega
  · intro b hb h2 h11
    refine lzwpre_not_imcs e f (fun c hc => ?_)
    rw [hb] at hc
    cases Option.some.inj hc
    omega

theorem header_pair_format (e : Encoder) (f : Frame) (e1 : Encoder)
    (err0 : EncodingError) (err : EncodingFormatError)
    (hh : e.write_frame_header f = (e1, some err0))
    (herr : err0 = .Format err) :
    e1.w = e.w.map (fun s => s ++ ctrl_ext_bytes f) := by
  rcases write_frame_header_cases e f with ⟨hwn, hh2⟩ |
    ⟨s, hws, ⟨err2, hh2, _⟩ | ⟨d, hh2⟩⟩
  · rw [hh] at hh2
    injection hh2 with h1 h2
    injection h2 with h3
    rw [herr] at h3
    cases h3
  · rw [hh] at hh2
    injection hh2 with h1 h2
    subst h1
    rw [hws]
    rfl
  · rw [hh] at hh2
    injection hh2 with h1 h2
    cases h2

theorem write_global_palette_error (e : Encoder) (p : List Nat) (s : List Nat)
    (err : EncodingError) (hw : e.w = some s)
    (hres : (e.write_global_palette p).2 = some err) :
    (e.write_global_palette p).1 = e ∧ err = .Format .TooManyColors ∧
    Encoder.dropWrites (e.write_global_palette p).1 = [blockTrailer] := by
  by_cases hn : 256 < p.length / 3
  · have hc := check_color_table_err p hn
    have heq : e.write_global_palette p = (e, some (.Format .TooManyColors)) := by
      simp only [Encoder.write_global_palette, hc]
    rw [heq] at hres ⊢
    refine ⟨rfl, (Option.some.inj hres).symm, ?_⟩
    simp [Encoder.dropWrites, hw]
  · have hc := check_color_table_ok p (by omega)
    exfalso
    revert hres
    simp [Encoder.write_global_palette, hc, Encoder.write_screen_desc, hw]

/-- Claim C6 (amended): a Format error is raised before any bytes of the
offending construct are written.  The constructor path
(`write_global_palette` with the writer present) fails only with
`TooManyColors`, leaves the sink untouched, and the implicit drop of the
partially built encoder then appends the lone trailer byte; a frame write
failing with a Format error has appended exactly the 8-byte graphic-control
extension (a complete block, so the sink remains a valid GIF prefix) and no
bytes of the image descriptor or color table; a pre-encoded frame write
failing with `InvalidMinCodeSize` appends nothing. -/
theorem c6_format_errors :
    (∀ (e : Encoder) (p : List Nat) (s : List Nat) (err : EncodingError),
      e.w = some s → (e.write_global_palette p).2 = some err →
      (e.write_global_palette p).1 = e ∧ err = .Format .TooManyColors ∧
      Encoder.dropWrites (e.write_global_palette p).1 = [blockTrailer]) ∧
    (∀ (lzwBody : Nat → List Nat → List Nat) (e : Encoder) (f : Frame)
      (err : EncodingFormatError),
      (e.write_frame lzwBody f).2 = some (.Format err) →
      ((e.write_frame lzwBody f).1).w = e.w.map (fun s => s ++ ctrl_ext_bytes f)) ∧
    (∀ (e : Encoder) (f : Frame),
      (e.write_lzw_pre_encoded_frame f).2 = some (.Format .InvalidMinCodeSize) →
      (e.write_lzw_pre_encoded_frame f).1 = e) ∧
    (∀ (e : Encoder) (f : Frame) (err : EncodingFormatError),
      err ≠ .InvalidMinCodeSize →
      (e.write_lzw_pre_encoded_frame f).2 = some (.Format err) →
      ((e.write_lzw_pre_encoded_frame f).1).w =
        e.w.map (fun s => s ++ ctrl_ext_bytes f)) := by
  refine ⟨fun e p s err hw hres => write_global_palette_error e p s err hw hres,
    ?_, ?_, ?_⟩
  · intro lzwBody e f err hres
    rcases write_frame_shape lzwBody e f with ⟨hlt, heq⟩ |
      ⟨hge, ⟨e1, err0, hh, heq⟩ | ⟨e1, hh, hw1, heq⟩ | ⟨e1, s, hh, hw1, heq⟩⟩
    · rw [heq] at hres
      simp at hres
    · rw [heq] at hres ⊢
      have herr0 : err0 = .Format err := by simpa using hres
      exact header_pair_format e f e1 err0 err hh herr0
    · rw [heq] at hres
      simp at hres
    · rw [heq] at hres
      simp at hres
  · intro e f hres
    rcases write_lzw_pre_shape e f with ⟨b, hb, hr, heq⟩ | ⟨hgood, _⟩
    · rw [heq]
    · exact absurd hres (lzwpre_not_imcs e f hgood)
  · intro e f err hne hres
    rcases write_lzw_pre_shape e f with ⟨b, hb, hr, heq⟩ |
      ⟨hgood, ⟨e1, err0, hh, heq⟩ | ⟨e1, hh, hw1, heq⟩ | ⟨e1, s, hh, hw1, heq⟩⟩
    · rw [heq] at hres
      have : EncodingFormatError.InvalidMinCodeSize = err := by simpa using hres
      exact absurd this.symm hne
    · rw [heq] at hres ⊢
      have herr0 : err0 = .Format err := by simpa using hres
      exact header_pair_format e f e1 err0 err hh herr0
    · rw [heq] at hres
      simp at hres
    · rw [heq] at hres
      simp at hres

theorem scanMaxByte_lt_256 (l : List Nat) (h : ∀ b ∈ l, b < 256) :
    scanMaxByte l 0 < 256 := by
  rcases scanMaxByte_cases l 0 with heq | ⟨_, hle⟩
  · rw [heq]
    exact foldr_max_lt l 0 h (by omega)
  · exact lt_of_le_of_lt hle (foldr_max_lt l 0 h (by omega))

theorem write_frame_header_buffer_irrel (e : Encoder) (f : Frame)
    (buf : List Nat) :
    e.write_frame_header { f with buffer := buf } = e.write_frame_header f := rfl

/-- Claim C9: for a frame whose raw index buffer is made of bytes and covers
`width * height`, compressing with `make_lzw_pre_encoded` and writing via
`write_lzw_pre_encoded_frame` hands the sink exactly the same bytes (and the
same result) as `write_frame` on the original frame. -/
theorem c9_pre_encoded_equivalence (lzwBody : Nat → List Nat → List Nat)
    (e : Encoder) (f : Frame) (hbytes : ∀ b ∈ f.buffer, b < 256)
    (hsize : f.width * f.height ≤ f.buffer.length) :
    (((e.write_lzw_pre_encoded_frame (f.make_lzw_pre_encoded lzwBody)).1).w,
      (e.write_lzw_pre_encoded_frame (f.make_lzw_pre_encoded lzwBody)).2) =
    (((e.write_frame lzwBody f).1).w, (e.write_frame lzwBody f).2) := by
  have hsc := scanMaxByte_lt_256 f.buffer hbytes
  have harg4 : 4 ≤ max (scanMaxByte f.buffer 0 + 1) 4 := le_max_right _ 4
  have harg : max (scanMaxByte f.buffer 0 + 1) 4 < 257 := by omega
  obtain ⟨hm2, hm8, _, _⟩ := tzNpt_facts _ harg harg4
  have hhead : (f.make_lzw_pre_encoded lzwBody).buffer.head? =
      some (trailingZeros (nextPowTwo (max (scanMaxByte f.buffer 0 + 1) 4))) := rfl
  have hhdr : e.write_frame_header (f.make_lzw_pre_encoded lzwBody) =
      e.write_frame_header f :=
    write_frame_header_buffer_irrel e f _
  rcases write_lzw_pre_shape e (f.make_lzw_pre_encoded lzwBody) with
    ⟨b, hb, hr, _⟩ | ⟨_, hpre⟩
  · rw [hhead] at hb
    cases Option.some.inj hb
    omega
  · rcases write_frame_shape lzwBody e f with ⟨hlt, _⟩ | ⟨_, hfrm⟩
    · omega
    · rcases hh : e.write_frame_header f with ⟨e1, r⟩
      rcases hpre with ⟨e1p, errp, hhp, heqp⟩ | ⟨e1p, hhp, hwp, heqp⟩ |
        ⟨e1p, sp, hhp, hwp, heqp⟩ <;> rw [hhdr, hh] at hhp <;>
        injection hhp with hp1 hp2 <;> subst hp1 <;> subst hp2 <;>
        rcases hfrm with ⟨e2, err2, hh2, heq2⟩ | ⟨e2, hh2, hw2, heq2⟩ |
          ⟨e2, s2, hh2, hw2, heq2⟩ <;> rw [hh] at hh2 <;>
        injection hh2 with hf1 hf2 <;> subst hf1
      · cases Option.some.inj hf2
        rw [heqp, heq2]
      · cases hf2
      · cases hf2
      · cases hf2
      · rw [heqp, heq2]
      · rw [hw2] at hwp
        cases hwp
      · cases hf2
      · rw [hw2] at hwp
        cases hwp
      · rw [hw2] at hwp
        cases Option.some.inj hwp
        rw [heqp, heq2]
        rfl

theorem option_map_append (o : Option (List Nat)) (d1 d2 : List Nat) :
    Option.map (fun s => s ++ d2) (Option.map (fun s => s ++ d1) o) =
      Option.map (fun s => s ++ (d1 ++ d2)) o := by
  cases o <;> simp

theorem write_extension_w_append (e : Encoder) (x : ExtensionData) :
    ∃ d, ((e.write_extension x).1).w = e.w.map (fun s => s ++ d) := by
  rcases x with ⟨fl, dl, t⟩ | r
  · cases hw : e.w
    · exact ⟨[], by simp [Encoder.write_extension, hw]⟩
    · exact ⟨extension_block_bytes (.Control fl dl t),
        by simp [Encoder.write_extension, hw]⟩
  · rcases r with n | _
    · cases n with
      | zero => exact ⟨[], by cases hw : e.w <;> simp [Encoder.write_extension, hw]⟩
      | succ k =>
        cases hw : e.w
        · exact ⟨[], by simp [Encoder.write_extension, hw]⟩
        · exact ⟨extension_block_bytes (.Repetitions (.Finite (k + 1))),
            by simp [Encoder.write_extension, hw]⟩
    · cases hw : e.w
      · exact ⟨[], by simp [Encoder.write_extension, hw]⟩
      · exact ⟨extension_block_bytes (.Repetitions .Infinite),
          by simp [Encoder.write_extension, hw]⟩

theorem write_frame_header_w_append (e : Encoder) (f : Frame) :
    ∃ d, ((e.write_frame_header f).1).w = e.w.map (fun s => s ++ d) := by
  rcases write_frame_header_cases e f with ⟨hwn, hh⟩ |
    ⟨s, hws, ⟨err, hh, _⟩ | ⟨d, hh⟩⟩
  · exact ⟨[], by rw [hh, hwn]; rfl⟩
  · exact ⟨ctrl_ext_bytes f, by rw [hh, hws]; rfl⟩
  · exact ⟨ctrl_ext_bytes f ++ d, by rw [hh, hws]; simp⟩

theorem write_frame_w_append (lzwBody : Nat → List Nat → List Nat)
    (e : Encoder) (f : Frame) :
    ∃ d, ((e.write_frame lzwBody f).1).w = e.w.map (fun s => s ++ d) := by
  obtain ⟨dh, hdh⟩ := write_frame_header_w_append e f
  rcases write_frame_shape lzwBody e f with ⟨_, heq⟩ |
    ⟨_, ⟨e1, err, hh, heq⟩ | ⟨e1, hh, hw1, heq⟩ | ⟨e1, s, hh, hw1, heq⟩⟩
  · exact ⟨[], by rw [heq]; cases e.w <;> simp⟩
  · rw [hh] at hdh
    exact ⟨dh, by rw [heq]; exact hdh⟩
  · rw [hh] at hdh
    exact ⟨dh, by rw [heq]; exact hdh⟩
  · rw [hh] at hdh
    rw [hw1] at hdh
    cases hew : e.w with
    | none => rw [hew] at hdh; cases hdh
    | some s0 =>
      rw [hew] at hdh
      have hs : s = s0 ++ dh := Option.some.inj hdh
      refine ⟨dh ++ encoded_image_block_bytes (lzw_encode lzwBody f.buffer), ?_⟩
      rw [heq]
      subst hs
      simp

theorem applyOp_w_append (lzwBody : Nat → List Nat → List Nat) (e : Encoder)
    (op : EncOp) :
    ∃ d, ((applyOp lzwBody e op).1).w = e.w.map (fun s => s ++ d) := by
  cases op with
  | frame f => exact write_frame_w_append lzwBody e f
  | ext x => exact write_extension_w_append e x

theorem runOps_w_append (lzwBody : Nat → List Nat → List Nat) :
    ∀ (ops : List EncOp) (e : Encoder),
      ∃ d, ((runOps lzwBody e ops).1).w = e.w.map (fun s => s ++ d) := by
  intro ops
  induction ops with
  | nil =>
    intro e
    exact ⟨[], by simp [runOps, map_append_nil]⟩
  | cons op rest ih =>
    intro e
    obtain ⟨d1, h1⟩ := applyOp_w_append lzwBody e op
    obtain ⟨d2, h2⟩ := ih (applyOp lzwBody e op).1
    refine ⟨d1 ++ d2, ?_⟩
    simp only [runOps]
    rcases ha : applyOp lzwBody e op with ⟨e1, r⟩
    rcases hrr : runOps lzwBody e1 rest with ⟨e2, ok⟩
    rw [ha] at h1 h2
    rw [hrr] at h2
    dsimp only
    rw [h2, h1, option_map_append]

theorem into_inner_some (e : Encoder) (s : List Nat) (h : e.w = some s) :
    e.into_inner = ({ e with w := none }, .ok (s ++ [blockTrailer])) := by
  simp [Encoder.into_inner, Encoder.write_trailer, h]

theorem dropWrites_some (e : Encoder) (s : List Nat) (h : e.w = some s) :
    e.dropWrites = [blockTrailer] := by
  simp [Encoder.dropWrites, h]

theorem dropWrites_none (e : Encoder) (h : e.w = none) :
    e.dropWrites = [] := by
  simp [Encoder.dropWrites, h]

theorem encoder_new_ok_w (sink : List Nat) (wd ht : Nat) (p : List Nat)
    (e : Encoder) (hok : Encoder.new sink wd ht p = .ok e) :
    ∃ r, e.w = some (sink ++ gifSignature ++ r) := by
  by_cases hn : 256 < p.length / 3
  · rw [Encoder.new] at hok
    simp only [Encoder.write_global_palette, check_color_table_err p hn] at hok
    cases hok
  · have hc := check_color_table_ok p (by omega)
    rw [Encoder.new] at hok
    simp only [Encoder.write_global_palette, hc, Encoder.write_screen_desc] at hok
    refine ⟨byteLE16 wd ++ byteLE16 ht ++
      [(0 ||| 128 ||| flag_size (p.length / 3) |||
        (flag_size (p.length / 3) <<< 4)) % 256, 0, 0] ++
      color_table_bytes (p.take (p.length / 3 * 3))
        ((2 <<< flag_size (p.length / 3)) - p.length / 3), ?_⟩
    have he := Except.ok.inj hok
    rw [← he]
    simp [List.append_assoc]

/-- Claim C2 (amended): after any sequence of successful
`write_frame`/`write_extension` calls on a successfully constructed encoder,
the stream starts with the `GIF89a` signature at offset 0 (the signature
bytes are written once during construction, though the same byte substring
can also reappear inside palette or payload data), `into_inner` appends
exactly one trailer byte `0x3B` at the end, and the trailer is written
exactly once: after `into_inner` the sink is gone and drop appends nothing,
while dropping without `into_inner` appends the same single trailer. -/
theorem c2_trailer_once_signature_at_start (lzwBody : Nat → List Nat → List Nat) (wd ht : Nat)
    (p : List Nat) (ops : List EncOp) (e0 e1 : Encoder)
    (hnew : Encoder.new [] wd ht p = .ok e0)
    (hrun : runOps lzwBody e0 ops = (e1, true)) :
    ∃ s1, e1.w = some s1 ∧ s1.take 6 = gifSignature ∧
      e1.into_inner = ({ e1 with w := none }, .ok (s1 ++ [blockTrailer])) ∧
      Encoder.dropWrites { e1 with w := none } = [] ∧
      Encoder.dropWrites e1 = [blockTrailer] := by
  obtain ⟨r, hw0⟩ := encoder_new_ok_w [] wd ht p e0 hnew
  obtain ⟨D, hD⟩ := runOps_w_append lzwBody ops e0
  rw [hrun] at hD
  rw [hw0] at hD
  simp only [List.nil_append, Option.map_some'] at hD
  refine ⟨gifSignature ++ r ++ D, by simpa using hD, ?_, ?_, ?_, ?_⟩
  · rw [List.append_assoc]
    exact List.take_left' rfl
  · exact into_inner_some e1 _ (by simpa using hD)
  · exact dropWrites_none _ rfl
  · exact dropWrites_some e1 _ (by simpa using hD)

/-! ## Witnesses and counterexamples for claims C2, C6, C8, C9, C10 -/

/-- Witness for C2 at the minimal construction and the empty operation list. -/
theorem c2_witness :
    Encoder.new [] 1 1 [] = .ok (Encoder.mk
      (some [71, 73, 70, 56, 57, 97, 1, 0, 1, 0, 128, 0, 0, 0, 0, 0, 0, 0, 0])
      false 1 1 []) ∧
    runOps (fun _ _ => []) (Encoder.mk
      (some [71, 73, 70, 56, 57, 97, 1, 0, 1, 0, 128, 0, 0, 0, 0, 0, 0, 0, 0])
      false 1 1 []) [] = (Encoder.mk
      (some [71, 73, 70, 56, 57, 97, 1, 0, 1, 0, 128, 0, 0, 0, 0, 0, 0, 0, 0])
      false 1 1 [], true) ∧
    ∃ s1, (Encoder.mk
        (some [71, 73, 70, 56, 57, 97, 1, 0, 1, 0, 128, 0, 0, 0, 0, 0, 0, 0, 0])
        false 1 1 []).w = some s1 ∧ s1.take 6 = gifSignature ∧
      (Encoder.mk
        (some [71, 73, 70, 56, 57, 97, 1, 0, 1, 0, 128, 0, 0, 0, 0, 0, 0, 0, 0])
        false 1 1 []).into_inner =
        (Encoder.mk none false 1 1 [], .ok (s1 ++ [blockTrailer])) ∧
      Encoder.dropWrites (Encoder.mk none false 1 1 []) = [] ∧
      Encoder.dropWrites (Encoder.mk
        (some [71, 73, 70, 56, 57, 97, 1, 0, 1, 0, 128, 0, 0, 0, 0, 0, 0, 0, 0])
        false 1 1 []) = [blockTrailer] :=
  ⟨rfl, rfl,
    c2_trailer_once_signature_at_start (fun _ _ => []) 1 1 [] [] _ _ rfl rfl⟩

/-- Claim C2 (counterexample to the claim as stated): with the 2-triplet
global palette whose bytes spell `GIF89a`, a successful construction followed
by `into_inner` yields a stream containing the signature substring twice (at
offsets 0 and 13), so the stream does not contain exactly one occurrence. -/
theorem c2_signature_occurrence_refuted :
    (Encoder.new [] 1 1 [71, 73, 70, 56, 57, 97]).map
        (fun e => (Encoder.into_inner e).2) =
      .ok (.ok [71, 73, 70, 56, 57, 97, 1, 0, 1, 0, 128, 0, 0,
                71, 73, 70, 56, 57, 97, 59]) ∧
    countOccurrences gifSignature
      [71, 73, 70, 56, 57, 97, 1, 0, 1, 0, 128, 0, 0,
       71, 73, 70, 56, 57, 97, 59] = 2 ∧ (2 : Nat) ≠ 1 :=
  ⟨rfl, by decide, by decide⟩

/-- Witness for C6 at a frame carrying a 771-byte (257-triplet) local
palette. -/
theorem c6_witness :
    ((Encoder.mk (some []) true 1 1 []).write_frame (fun _ _ => [])
        (Frame.mk 0 0 0 0 0 .Any false none false
          (some (List.replicate 771 0)) [])).2 =
      some (.Format .TooManyColors) ∧
    (((Encoder.mk (some []) true 1 1 []).write_frame (fun _ _ => [])
        (Frame.mk 0 0 0 0 0 .Any false none false
          (some (List.replicate 771 0)) [])).1).w =
      (Encoder.mk (some []) true 1 1 []).w.map (fun s => s ++ ctrl_ext_bytes
        (Frame.mk 0 0 0 0 0 .Any false none false
          (some (List.replicate 771 0)) [])) :=
  ⟨rfl, c6_format_errors.2.1 (fun _ _ => []) _ _ .TooManyColors rfl⟩

/-- Claim C6 (counterexample to the claim as stated): a `write_frame` call
rejecting a 257-triplet local palette has already written the 8-byte
graphic-control extension to the sink, so the failing call does write
bytes. -/
theorem c6_frame_call_writes_refuted :
    (Encoder.mk (some []) true 1 1 []).write_frame (fun _ _ => [])
        (Frame.mk 0 0 0 0 0 .Any false none false
          (some (List.replicate 771 0)) []) =
      (Encoder.mk (some [33, 249, 4, 0, 0, 0, 0, 0]) true 1 1 [],
        some (.Format .TooManyColors)) ∧
    ([33, 249, 4, 0, 0, 0, 0, 0] : List Nat) ≠ [] :=
  ⟨rfl, by decide⟩

/-- Witness for C8 at pre-encoded buffers starting with `0x01`, `0x0C` and
`0x08`. -/
theorem c8_witness :
    ((Encoder.mk (some []) true 1 1 []).write_lzw_pre_encoded_frame
        (Frame.mk 0 0 1 1 0 .Any false none false none [1])).2 =
      some (.Format .InvalidMinCodeSize) ∧
    ((Encoder.mk (some []) true 1 1 []).write_lzw_pre_encoded_frame
        (Frame.mk 0 0 1 1 0 .Any false none false none [12])).2 =
      some (.Format .InvalidMinCodeSize) ∧
    ((Encoder.mk (some []) true 1 1 []).write_lzw_pre_encoded_frame
        (Frame.mk 0 0 1 1 0 .Any false none false none [8])).2 ≠
      some (.Format .InvalidMinCodeSize) :=
  ⟨(c8_min_code_size_validation _ _).1.mpr ⟨1, rfl, by decide⟩,
   (c8_min_code_size_validation _ _).1.mpr ⟨12, rfl, by decide⟩,
   (c8_min_code_size_validation _ _).2 8 rfl (by decide) (by decide)⟩

/-- Witness for C9 at a 1-by-1 frame with index buffer `[0]`. -/
theorem c9_witness :
    (∀ b ∈ [(0 : Nat)], b < 256) ∧
    (1 * 1 ≤ ([(0 : Nat)] : List Nat).length) ∧
    ((((Encoder.mk (some []) true 1 1 []).write_lzw_pre_encoded_frame
        ((Frame.mk 0 0 1 1 0 .Any false none false none [0]).make_lzw_pre_encoded
          (fun _ _ => []))).1).w,
      ((Encoder.mk (some []) true 1 1 []).write_lzw_pre_encoded_frame
        ((Frame.mk 0 0 1 1 0 .Any false none false none [0]).make_lzw_pre_encoded
          (fun _ _ => []))).2) =
    ((((Encoder.mk (some []) true 1 1 []).write_frame (fun _ _ => [])
        (Frame.mk 0 0 1 1 0 .Any false none false none [0])).1).w,
      ((Encoder.mk (some []) true 1 1 []).write_frame (fun _ _ => [])
        (Frame.mk 0 0 1 1 0 .Any false none false none [0])).2) :=
  ⟨by decide, by decide,
    c9_pre_encoded_equivalence (fun _ _ => []) _ _ (by decide) (by decide)⟩

/-- Witness for C10 at a 5-by-5 frame with an empty buffer (global palette
present): the call succeeds despite `width * height > 0 = buffer.len`. -/
theorem c10_witness :
    (Frame.mk 0 0 5 5 0 DisposalMethod.Any false none false none
      ([] : List Nat)).buffer = [] ∧
    (∃ e1 s1,
      (Encoder.mk (some []) true 1 1 []).write_frame_header
          (Frame.mk 0 0 5 5 0 .Any false none false none []) = (e1, none) ∧
      e1.w = some s1 ∧
      (Encoder.mk (some []) true 1 1 []).write_lzw_pre_encoded_frame
          (Frame.mk 0 0 5 5 0 .Any false none false none []) =
        ({ e1 with w := some (s1 ++ [2, 0]) }, none)) :=
  ⟨rfl, (c10_empty_buffer_pre_encoded _ _ [] rfl).2 rfl (Or.inl ⟨rfl, rfl⟩)⟩
